import Mathlib

/-! # dstask importer: identity derivation, field projection and merge-on-import

A shallow embedding of `pkg/imp/github/issue.go` (`IssueData.Init`,
`IssueData.ToTask`) and `pkg/imp/process.go` (`ProcessTask`), followed by the
properties of the importer stated over that embedding.

Conventions of the embedding:

* a Go `string` is a Lean `String`; the byte `\x00` is the character `Char.ofNat 0`;
* a Go method with a pointer receiver becomes a function that returns the
  receiver's new state next to the method's results;
* library code that lives outside the repository (`crypto/md5`, `gofrs/uuid`,
  `text/template`, `yaml.v2`, the `os` file calls) is a parameter of the
  definitions that use it.
-/

namespace Dstask

/-! ## Data model -/

/-- A Go `time.Time`, kept as an instant counted from the zero time. -/
structure Time where
  instant : Int
deriving DecidableEq

/-- The zero value of `time.Time`: what a field holds when it was never set. -/
def Time.unset : Time := ⟨0⟩

/-- Modelled from the spec: the constant `dstask.STATUS_PENDING` is declared outside
`src/`; the spec calls it the initial "pending" state, and `ProcessTask` compares
against the literal `"pending"`. -/
def STATUS_PENDING : String := "pending"

/-- Modelled from the spec: the constant `dstask.STATUS_RESOLVED` is declared outside
`src/`; the spec calls it the "resolved" terminal state. -/
def STATUS_RESOLVED : String := "resolved"

/-- Modelled from the spec: the struct `dstask.Task` is declared outside `src/`. The
fields are the ones of the spec's Local Task Record (stable identifier, lifecycle
status, creation time, resolution time, summary, project, priority, notes, ordered
tags), under the names `ToTask` and `ProcessTask` use for them. -/
structure Task where
  UUID : String
  Status : String
  Created : Time
  Resolved : Time
  Summary : String
  Project : String
  Priority : String
  Notes : String
  Tags : List String
deriving DecidableEq

/-- The zero value of `dstask.Task` (what `var localTask dstask.Task` holds). -/
def Task.zero : Task :=
  { UUID := "", Status := "", Created := Time.unset, Resolved := Time.unset,
    Summary := "", Project := "", Priority := "", Notes := "", Tags := [] }

/-- Modelled from the spec: the struct `github.Issue` is declared outside `src/`. The
fields are the ones `Init` reads (the spec's ExternalRecord); the nested author and
milestone are flattened to the one string `Init` takes from each. -/
structure Issue where
  AuthorName : String
  Body : String
  ClosedAt : Time
  Closed : Bool
  CreatedAt : Time
  MilestoneTitle : String
  Number : Int
  State : String
  Title : String
  URL : String
deriving DecidableEq

/-- The two library calls behind the identifier: `md5Sum w` is the digest
`crypto/md5` returns for the bytes `w` written since the last `Reset`, and
`uuidString d` is `uuid.UUID.String` of the sixteen bytes `d`. -/
structure HashLib where
  md5Sum : String → List Nat
  uuidString : List Nat → String

/-- The struct `IssueData` (issue.go 17-41). `uuidHash` holds the bytes written into
the running hash since its last `Reset`; `buf` holds the contents of the buffer. -/
structure IssueData where
  uuidHash : String
  buf : String
  uuid : List Nat
  UUID : String
  RepoOwner : String
  RepoName : String
  Author : String
  Body : String
  ClosedAt : Time
  Closed : Bool
  CreatedAt : Time
  Milestone : String
  Number : Int
  State : String
  Title : String
  URL : String
deriving DecidableEq

/-- The function `NewIssueData` (issue.go 43-49): a fresh hash, an empty buffer, and the
zero value in every other field. -/
def NewIssueData : IssueData :=
  { uuidHash := "", buf := "", uuid := List.replicate 16 0, UUID := "",
    RepoOwner := "", RepoName := "", Author := "", Body := "",
    ClosedAt := Time.unset, Closed := false, CreatedAt := Time.unset,
    Milestone := "", Number := 0, State := "", Title := "", URL := "" }

/-! ## Identity derivation (`IssueData.Init`) -/

/-- The library call `strconv.Itoa`: the decimal form of an integer, with a leading
minus sign for a negative one. -/
def Itoa (i : Int) : String :=
  match i with
  | Int.ofNat n => Nat.repr n
  | Int.negSucc n => "-" ++ Nat.repr (n + 1)

/-- The separator written between the parts of the key: the string `"\x00"`. -/
def sep : String := String.singleton (Char.ofNat 0)

/-- The bytes `Init` writes into the hash after resetting it (issue.go 67-73), in
order: `"GH"`, separator, owner, separator, name, separator, decimal number. -/
def hashInput (repoOwner repoName : String) (number : Int) : String :=
  "GH" ++ sep ++ repoOwner ++ sep ++ repoName ++ sep ++ Itoa number

/-- The method `IssueData.Init` (issue.go 52-76), returning the receiver's new state. -/
def IssueData.Init (lib : HashLib) (id : IssueData) (repoOwner repoName : String)
    (i : Issue) : IssueData :=
  let id := { id with
    RepoOwner := repoOwner, RepoName := repoName, Author := i.AuthorName,
    Body := i.Body, ClosedAt := i.ClosedAt, Closed := i.Closed,
    CreatedAt := i.CreatedAt, Milestone := i.MilestoneTitle, Number := i.Number,
    State := i.State, Title := i.Title, URL := i.URL }
  -- id.uuidHash.Reset()
  let id := { id with uuidHash := "" }
  let id := { id with uuidHash := id.uuidHash ++ "GH" }
  let id := { id with uuidHash := id.uuidHash ++ sep }
  let id := { id with uuidHash := id.uuidHash ++ repoOwner }
  let id := { id with uuidHash := id.uuidHash ++ sep }
  let id := { id with uuidHash := id.uuidHash ++ repoName }
  let id := { id with uuidHash := id.uuidHash ++ sep }
  let id := { id with uuidHash := id.uuidHash ++ Itoa i.Number }
  -- id.uuidHash.Sum(id.uuid[:0]) stores the digest in id.uuid
  let id := { id with uuid := lib.md5Sum id.uuidHash }
  { id with UUID := lib.uuidString id.uuid }

/-! ## Field projection (`IssueData.ToTask`) -/

/-- A parsed `text/template` template, by what `Execute(w, data)` does: the text it
writes to the writer and the error it returns. A template that fails may already have
written part of its output. -/
abbrev Template := IssueData → String × Option String

/-- Modelled from the spec: the struct `github.Templates` is declared outside `src/`;
the spec names its five slots: summary, project, priority, notes, and an ordered
list of tag templates. -/
structure Templates where
  Summary : Template
  Project : Template
  Priority : Template
  Notes : Template
  Tags : List Template

/-- The call `t.Execute(id.buf, id)`: appends the template's output to the buffer and
returns the error. -/
def Execute (t : Template) (id : IssueData) : IssueData × Option String :=
  ({ id with buf := id.buf ++ (t id).1 }, (t id).2)

/-- The call `id.buf.Reset()`. -/
def IssueData.bufReset (id : IssueData) : IssueData := { id with buf := "" }

/-- The loop over `templates.Tags` of `ToTask` (issue.go 123-134): the returned task
and error, and the receiver's state when the loop is left. -/
def tagsLoop : List Template → IssueData → Task → (Task × Option String) × IssueData
  | [], id, task => ((task, none), id)
  | t :: rest, id, task =>
    match Execute t id with
    | (id, some err) => ((task, some err), id)
    | (id, none) =>
      let task := if id.buf ≠ "" then { task with Tags := task.Tags ++ [id.buf] } else task
      tagsLoop rest id.bufReset task

/-- The method `IssueData.ToTask` (issue.go 79-137): the returned task and error, and
the receiver's state on return. -/
def IssueData.ToTask (id : IssueData) (templates : Templates) :
    (Task × Option String) × IssueData :=
  let task : Task := { Task.zero with
    UUID := id.UUID, Status := STATUS_PENDING, Created := id.CreatedAt }
  let task := if id.Closed then
      { task with Status := STATUS_RESOLVED, Resolved := id.ClosedAt }
    else task
  match Execute templates.Summary id with
  | (id, some err) => ((task, some err), id)
  | (id, none) =>
    let task := { task with Summary := id.buf }
    let id := id.bufReset
    match Execute templates.Project id with
    | (id, some err) => ((task, some err), id)
    | (id, none) =>
      let task := { task with Project := id.buf }
      let id := id.bufReset
      match Execute templates.Priority id with
      | (id, some err) => ((task, some err), id)
      | (id, none) =>
        let task := { task with Priority := id.buf }
        let id := id.bufReset
        match Execute templates.Notes id with
        | (id, some err) => ((task, some err), id)
        | (id, none) =>
          let task := { task with Notes := id.buf }
          let id := id.bufReset
          tagsLoop templates.Tags id task

/-! ## The local store and `ProcessTask` -/

/-- Modelled from the spec: `dstask.MustGetRepoPath` is declared outside `src/`; the
spec says the store derives, per status partition, the expected file path for a given
identifier. A path is kept as its three parts, so two paths are equal exactly when
repository, partition and file name are. -/
structure Path where
  repo : String
  directory : String
  file : String
deriving DecidableEq

/-- Modelled from the spec: `dstask.MustGetRepoPath`, see `Path`. -/
def MustGetRepoPath (repo directory file : String) : Path := ⟨repo, directory, file⟩

/-- A file on disk: its contents, the error `os.ReadFile` returns for it (if it cannot
be read) and the error `os.Remove` returns for it (if it cannot be removed). -/
structure File (β : Type) where
  data : β
  readErr : Option String
  removeErr : Option String

/-- The file system: the files by path, and for each path the error a write to it
returns (if the path cannot be written). -/
structure FS (β : Type) where
  files : Path → Option (File β)
  writeErr : Path → Option String

/-- The serialisation library `yaml.v2`: `unmarshal data` is the outcome of
`yaml.Unmarshal(data, &t)` for a zero-valued task `t`. -/
structure Codec (β : Type) where
  marshal : Task → β
  unmarshal : β → Except String Task

/-- The call `os.ReadFile`: fails on a missing file and on a file that cannot be read. -/
def ReadFile {β : Type} (fs : FS β) (filepath : Path) : Except String β :=
  match fs.files filepath with
  | none => .error "no such file or directory"
  | some f =>
    match f.readErr with
    | some e => .error e
    | none => .ok f.data

/-- The call `os.Remove`: fails on a missing file and on a file that cannot be
removed; otherwise the file is gone. -/
def Remove {β : Type} (fs : FS β) (filepath : Path) : Except String (FS β) :=
  match fs.files filepath with
  | none => .error "no such file or directory"
  | some f =>
    match f.removeErr with
    | some e => .error e
    | none => .ok { fs with files := fun q => if q = filepath then none else fs.files q }

/-- The call `os.WriteFile`: fails on a path that cannot be written; otherwise the path
holds the new contents (a file that was there keeps its other attributes). -/
def WriteFile {β : Type} (fs : FS β) (filepath : Path) (data : β) : Except String (FS β) :=
  match fs.writeErr filepath with
  | some e => .error e
  | none =>
    let f : File β := match fs.files filepath with
      | some old => { old with data := data }
      | none => { data := data, readErr := none, removeErr := none }
    .ok { fs with files := fun q => if q = filepath then some f else fs.files q }

/-- Modelled from the spec: the part of `dstask.Task.SaveToDisk` (declared outside
`src/`) that keeps the spec's invariant of at most one copy per identifier across all
status partitions: for every listed status other than the task's own, the identifier's
file in that partition is removed when it is there. A removal that fails ends the
call: `none` stands for a call that does not return. -/
def removeOthers {β : Type} (repo status file : String) : List String → FS β → Option (FS β)
  | [], fs => some fs
  | st :: rest, fs =>
    if st = status then removeOthers repo status file rest fs
    else
      match fs.files (MustGetRepoPath repo st file) with
      | none => removeOthers repo status file rest fs
      | some _ =>
        match Remove fs (MustGetRepoPath repo st file) with
        | .error _ => none
        | .ok fs => removeOthers repo status file rest fs

/-- Modelled from the spec: the method `dstask.Task.SaveToDisk` is declared outside
`src/`. The spec gives the store operation it stands for: serialize and write the task
record into the partition matching its current status, keyed by its identifier; and the
store's invariant: after an import at most one copy of a record exists across all
status partitions. The model writes the record file and then removes the identifier's
file from every other listed partition. `ProcessTask` binds no result of the call
(process.go 57), so the call reports nothing to it: a step that fails ends the call
without a return to `ProcessTask`, and `none` stands for that. -/
def Task.SaveToDisk {β : Type} (c : Codec β) (ALL_STATUSES : List String) (task : Task)
    (repo : String) (fs : FS β) : Option (FS β) :=
  match WriteFile fs (MustGetRepoPath repo task.Status (task.UUID ++ ".yml")) (c.marshal task) with
  | .error _ => none
  | .ok fs => removeOthers repo task.Status (task.UUID ++ ".yml") ALL_STATUSES fs

/-- The errors `ProcessTask` returns: the one it builds with `fmt.Errorf` for a file
that does not parse, and an error value of package `os` passed on as it is. -/
inductive Error where
  | unmarshal (filepath : Path) (cause : String)
  | os (err : String)
deriving DecidableEq

/-- The state in which the loop of `ProcessTask` is left: either the function has
returned an error, or the loop is done with the variables `found` and `localTask` set
and the file system as the loop left it. -/
inductive Scan (β : Type) where
  | failed (err : Error)
  | done (found : Bool) (localTask : Task) (fs : FS β)

/-- The loop over `dstask.ALL_STATUSES` of `ProcessTask` (process.go 20-44). -/
def scan {β : Type} (c : Codec β) (repo uuid : String) : List String → FS β → Scan β
  | [], fs => .done false Task.zero fs
  | status :: rest, fs =>
    let filepath := MustGetRepoPath repo status (uuid ++ ".yml")
    match ReadFile fs filepath with
    | .error _ => scan c repo uuid rest fs
    | .ok data =>
      match c.unmarshal data with
      | .error e => .failed (.unmarshal filepath e)
      | .ok localTask =>
        match Remove fs filepath with
        | .error e => .failed (.os e)
        | .ok fs => .done true localTask fs

/-- The merge of `ProcessTask` (process.go 46-55): the task as it is handed to
`SaveToDisk`. -/
def merge (found : Bool) (localTask task : Task) : Task :=
  if found then
    let task := if localTask.Notes ≠ "" then { task with Notes := localTask.Notes } else task
    if task.Status = "pending" ∧ (localTask.Status = "active" ∨ localTask.Status = "paused") then
      { task with Status := localTask.Status }
    else task
  else task

/-- How a call of `ProcessTask` ends: it returns an error value (`none` is Go's `nil`)
and leaves the file system in some state, or it does not return because the process
ended inside `SaveToDisk`. -/
inductive Outcome (β : Type) where
  | returned (err : Option Error) (fs : FS β)
  | exited

/-- The function `ProcessTask` (process.go 12-60). The list `ALL_STATUSES` is the
constant `dstask.ALL_STATUSES`, declared outside `src/`. No result of
`task.SaveToDisk(repo)` is bound: when the call returns, the next statement is
`return nil`. -/
def ProcessTask {β : Type} (c : Codec β) (ALL_STATUSES : List String) (repo : String)
    (task : Task) (fs : FS β) : Outcome β :=
  match scan c repo task.UUID ALL_STATUSES fs with
  | .failed err => .returned (some err) fs
  | .done found localTask fs =>
    let task := merge found localTask task
    match task.SaveToDisk c ALL_STATUSES repo fs with
    | none => .exited
    | some fs => .returned none fs

/-- A second call of `ProcessTask` with the same task, on the file system the first
call left. -/
def secondRun {β : Type} (c : Codec β) (ALL_STATUSES : List String) (repo : String)
    (task : Task) (first : Outcome β) : Outcome β :=
  match first with
  | .returned _ fs => ProcessTask c ALL_STATUSES repo task fs
  | .exited => .exited

/-- Whether the partition `status` holds a record file for the identifier `uuid`. -/
def holds {β : Type} (fs : FS β) (repo uuid status : String) : Bool :=
  (fs.files (MustGetRepoPath repo status (uuid ++ ".yml"))).isSome

/-- The file at `filepath` after a call that returned. -/
def Outcome.fileAt {β : Type} (o : Outcome β) (filepath : Path) : Option (File β) :=
  match o with
  | .returned _ fs => fs.files filepath
  | .exited => none

/-- The listed partitions that hold a record file for `uuid` after a call that
returned. -/
def Outcome.partitions {β : Type} (o : Outcome β) (sts : List String) (repo uuid : String) :
    Option (List String) :=
  match o with
  | .returned _ fs => some (sts.filter (holds fs repo uuid))
  | .exited => none

/-! ## Auxiliary definitions for the statements -/

/-- The value of a decimal digit character. -/
def digitValue (c : Char) : Nat := c.toNat - 48

/-- The number a list of decimal digits stands for, most significant digit first. -/
def decimalValue (l : List Char) : Nat := l.foldl (fun a c => 10 * a + digitValue c) 0

/-- The file system with the file at `filepath` gone. -/
def without {β : Type} (fs : FS β) (filepath : Path) : FS β :=
  { fs with files := fun q => if q = filepath then none else fs.files q }

/-- The file system with the file `f` at `filepath`. -/
def withFile {β : Type} (fs : FS β) (filepath : Path) (f : File β) : FS β :=
  { fs with files := fun q => if q = filepath then some f else fs.files q }

/-! ## Concrete inputs used by the closed statements below -/

/-- A summary template that writes `"half"` and then fails; every other slot
succeeds with empty output. -/
def failingTemplates : Templates :=
  { Summary := fun _ => ("half", some "boom"),
    Project := fun _ => ("", none),
    Priority := fun _ => ("", none),
    Notes := fun _ => ("", none),
    Tags := [] }

/-- Templates that all succeed: the summary is the issue's title, the notes its URL,
and the tags are the state, nothing, the author, and the state again. -/
def titleTemplates : Templates :=
  { Summary := fun id => (id.Title, none),
    Project := fun id => (id.RepoName, none),
    Priority := fun _ => ("P2", none),
    Notes := fun id => (id.URL, none),
    Tags := [fun id => (id.State, none), fun _ => ("", none),
             fun id => (id.Author, none), fun id => (id.State, none)] }

/-- An issue view with an empty buffer: issue 42 of acme/widgets, open. -/
def widgetIssue : IssueData :=
  { NewIssueData with
    UUID := "u42", RepoOwner := "acme", RepoName := "widgets", Author := "ann",
    Number := 42, State := "OPEN", Title := "Fix bug", URL := "https://example.org/42" }

/-- A stand-in for the hash library at concrete inputs: the digest lists the character
codes of what was written, and the rendering turns them back into text. -/
def listingLib : HashLib :=
  { md5Sum := fun w => w.data.map Char.toNat,
    uuidString := fun d => String.mk (d.map Char.ofNat) }

/-- Issue 42, open, titled "Fix bug". -/
def issueFixBug : Issue :=
  { AuthorName := "ann", Body := "it breaks", ClosedAt := Time.unset, Closed := false,
    CreatedAt := ⟨1700000000⟩, MilestoneTitle := "", Number := 42, State := "OPEN",
    Title := "Fix bug", URL := "https://example.org/42" }

/-- Issue 42 again after upstream edits: new title, new body, now closed. -/
def issueRetitled : Issue :=
  { AuthorName := "ann", Body := "it broke", ClosedAt := ⟨1700000500⟩, Closed := true,
    CreatedAt := ⟨1700000000⟩, MilestoneTitle := "v2", Number := 42, State := "CLOSED",
    Title := "Fix the bug", URL := "https://example.org/42" }

/-- An owner that contains the separator: "a", `\x00`, "b". -/
def ownerWithSep : String := "a" ++ sep ++ "b"

/-- A repository name that contains the separator: "b", `\x00`, "c". -/
def nameWithSep : String := "b" ++ sep ++ "c"

/-- The statuses used for `ALL_STATUSES` at concrete inputs. -/
def knownStatuses : List String :=
  ["active", "pending", "delegated", "deferred", "paused", "recurring", "resolved", "template"]

/-- A codec for concrete inputs whose file contents are the task itself, so that it
round-trips every field. -/
def plainCodec : Codec Task :=
  { marshal := fun t => t, unmarshal := fun d => .ok d }

/-- The candidate built from issue 42: pending, with notes taken from upstream. -/
def candidate : Task :=
  { UUID := "u42", Status := "pending", Created := ⟨1700000000⟩, Resolved := Time.unset,
    Summary := "Fix bug", Project := "widgets", Priority := "P2",
    Notes := "https://example.org/42", Tags := ["OPEN"] }

/-- The local copy of the same task after the user started work on it and edited its
notes. -/
def localActive : Task :=
  { candidate with
    Status := "active", Summary := "Fix bug (old title)", Notes := "investigating" }

/-- A store whose only file is `f`, the record file of "u42" in partition `status`,
and in which every write succeeds. -/
def storeWith (status : String) (f : File Task) : FS Task :=
  { files := fun q => if q = MustGetRepoPath "repo" status "u42.yml" then some f else none,
    writeErr := fun _ => none }

/-- The store after the user moved the task to the active partition. -/
def activeStore : FS Task :=
  storeWith "active" { data := localActive, readErr := none, removeErr := none }

/-- The same store when the record file cannot be read. -/
def unreadableStore : FS Task :=
  storeWith "active" { data := localActive, readErr := some "permission denied", removeErr := none }

/-- The same store on a full disk: files can be read and removed, no write succeeds. -/
def fullDiskStore : FS Task :=
  { activeStore with writeErr := fun _ => some "no space left on device" }

/-- A codec whose file contents hold every field except the two the store keeps in the
path: the identifier (the file name) and the status (the directory). -/
def bodyCodec : Codec Task :=
  { marshal := fun t => { t with UUID := "", Status := "" }, unmarshal := fun d => .ok d }

/-- The store after the user moved the task to the active partition, with the record
file as `bodyCodec` writes it. -/
def movedStore : FS Task :=
  storeWith "active" { data := bodyCodec.marshal localActive, readErr := none, removeErr := none }

/-- The candidate with a status that is not one of the listed statuses. -/
def strayCandidate : Task := { candidate with Status := "bogus" }

/-! ## Properties of `ToTask` -/

theorem empty_append_string (s : String) : "" ++ s = s := by
  apply String.ext
  simp

theorem Execute_reset (t : Template) (id : IssueData) (h : id.buf = "") :
    (Execute t id).1.bufReset = id := by
  cases id
  simp only [Execute, IssueData.bufReset] at *
  simp [h]

theorem Execute_buf (t : Template) (id : IssueData) (h : id.buf = "") :
    (Execute t id).1.buf = (t id).1 := by
  simp [Execute, h, empty_append_string]

theorem tagsLoop_fixed (ts : List Template) (id : IssueData) (task : Task) :
    (tagsLoop ts id task).1.1.UUID = task.UUID ∧
    (tagsLoop ts id task).1.1.Status = task.Status ∧
    (tagsLoop ts id task).1.1.Created = task.Created ∧
    (tagsLoop ts id task).1.1.Resolved = task.Resolved := by
  induction ts generalizing id task with
  | nil => simp [tagsLoop]
  | cons t rest ih =>
    unfold tagsLoop
    cases h : Execute t id with
    | mk id1 err =>
      cases err with
      | some e => simp
      | none =>
        simp only []
        split_ifs
        · simp [ih]
        · simp [ih]

theorem tagsLoop_ok (ts : List Template) (id : IssueData) (task : Task) (hbuf : id.buf = "")
    (hT : ∀ t ∈ ts, (t id).2 = none) :
    tagsLoop ts id task =
      (({ task with Tags := task.Tags ++ (ts.map (fun t => (t id).1)).filter (fun s => s ≠ "") },
        none), id) := by
  induction ts generalizing task with
  | nil => simp [tagsLoop]
  | cons t rest ih =>
    have h2 : (t id).2 = none := hT t (List.mem_cons_self _ _)
    have hrest : ∀ u ∈ rest, (u id).2 = none := fun u hu => hT u (List.mem_cons_of_mem _ hu)
    have hE : Execute t id = ((Execute t id).1, none) := by
      simp [Execute, h2]
    unfold tagsLoop
    rw [hE]
    simp only []
    rw [Execute_reset t id hbuf, Execute_buf t id hbuf, ih _ hrest]
    by_cases he : (t id).1 = ""
    · simp [he]
    · simp [he, List.filter_cons]

/-- C7. Status and timestamp derivation in `ToTask`: for every issue view and every
template set (whether or not the expansions succeed), the returned task carries the
view's UUID and the issue's creation time; when the closed flag is true its status is
"resolved" and its resolution time is the issue's `ClosedAt`; when the closed flag is
false its status is "pending" and its resolution time is the zero time, whatever
`ClosedAt` holds. -/
theorem ToTask_status_and_times (id : IssueData) (templates : Templates) :
    (id.ToTask templates).1.1.UUID = id.UUID ∧
    (id.ToTask templates).1.1.Created = id.CreatedAt ∧
    (id.Closed = true →
      (id.ToTask templates).1.1.Status = "resolved" ∧
      (id.ToTask templates).1.1.Resolved = id.ClosedAt) ∧
    (id.Closed = false →
      (id.ToTask templates).1.1.Status = "pending" ∧
      (id.ToTask templates).1.1.Resolved = Time.unset) := by
  unfold IssueData.ToTask
  simp only []
  cases h1 : Execute templates.Summary id with
  | mk id1 e1 =>
  cases e1 with
  | some e => cases hc : id.Closed <;> simp [Task.zero, STATUS_PENDING, STATUS_RESOLVED]
  | none =>
  simp only []
  cases h2 : Execute templates.Project id1.bufReset with
  | mk id2 e2 =>
  cases e2 with
  | some e => cases hc : id.Closed <;> simp [Task.zero, STATUS_PENDING, STATUS_RESOLVED]
  | none =>
  simp only []
  cases h3 : Execute templates.Priority id2.bufReset with
  | mk id3 e3 =>
  cases e3 with
  | some e => cases hc : id.Closed <;> simp [Task.zero, STATUS_PENDING, STATUS_RESOLVED]
  | none =>
  simp only []
  cases h4 : Execute templates.Notes id3.bufReset with
  | mk id4 e4 =>
  cases e4 with
  | some e => cases hc : id.Closed <;> simp [Task.zero, STATUS_PENDING, STATUS_RESOLVED]
  | none =>
  simp only []
  rw [(tagsLoop_fixed _ _ _).1, (tagsLoop_fixed _ _ _).2.1, (tagsLoop_fixed _ _ _).2.2.1,
    (tagsLoop_fixed _ _ _).2.2.2]
  cases hcl : id.Closed <;> simp [Task.zero, STATUS_PENDING, STATUS_RESOLVED]

theorem ToTask_ok (id : IssueData) (templates : Templates) (hbuf : id.buf = "")
    (hS : (templates.Summary id).2 = none) (hP : (templates.Project id).2 = none)
    (hPr : (templates.Priority id).2 = none) (hN : (templates.Notes id).2 = none)
    (hT : ∀ t ∈ templates.Tags, (t id).2 = none) :
    id.ToTask templates =
      (({ UUID := id.UUID,
          Status := if id.Closed then STATUS_RESOLVED else STATUS_PENDING,
          Created := id.CreatedAt,
          Resolved := if id.Closed then id.ClosedAt else Time.unset,
          Summary := (templates.Summary id).1,
          Project := (templates.Project id).1,
          Priority := (templates.Priority id).1,
          Notes := (templates.Notes id).1,
          Tags := (templates.Tags.map (fun t => (t id).1)).filter (fun s => s ≠ "") },
        none), id) := by
  have hE : ∀ t : Template, (t id).2 = none → Execute t id = ((Execute t id).1, none) := by
    intro t ht
    simp [Execute, ht]
  unfold IssueData.ToTask
  simp only []
  rw [hE _ hS]
  simp only []
  rw [Execute_reset _ id hbuf, Execute_buf _ id hbuf, hE _ hP]
  simp only []
  rw [Execute_reset _ id hbuf, Execute_buf _ id hbuf, hE _ hPr]
  simp only []
  rw [Execute_reset _ id hbuf, Execute_buf _ id hbuf, hE _ hN]
  simp only []
  rw [Execute_reset _ id hbuf, Execute_buf _ id hbuf, tagsLoop_ok _ id _ hbuf hT]
  cases hcl : id.Closed <;> simp [Task.zero]

/-- C8. Tag omission and order in `ToTask`: when the buffer is empty on entry and every
expansion succeeds, `ToTask` returns no error and the task's tag sequence is the list
of the tag templates' expansions, in template-list order, with exactly the empty
expansions removed (nothing is deduplicated). -/
theorem ToTask_tags (id : IssueData) (templates : Templates) (hbuf : id.buf = "")
    (hS : (templates.Summary id).2 = none) (hP : (templates.Project id).2 = none)
    (hPr : (templates.Priority id).2 = none) (hN : (templates.Notes id).2 = none)
    (hT : ∀ t ∈ templates.Tags, (t id).2 = none) :
    (id.ToTask templates).1.2 = none ∧
    (id.ToTask templates).1.1.Tags =
      (templates.Tags.map (fun t => (t id).1)).filter (fun s => s ≠ "") := by
  rw [ToTask_ok id templates hbuf hS hP hPr hN hT]
  exact ⟨rfl, rfl⟩

/-- Witness for C8: on the issue view `widgetIssue` the four tag templates
expand to "OPEN", "", "ann", "OPEN"; the empty one is dropped, the duplicate kept. -/
theorem ToTask_tags_witness :
    (widgetIssue.ToTask titleTemplates).1.2 = none ∧
    (widgetIssue.ToTask titleTemplates).1.1.Tags = ["OPEN", "ann", "OPEN"] :=
  ToTask_tags widgetIssue titleTemplates rfl rfl rfl rfl rfl (by decide)

/-- C10 (the code at the failing input). On a view whose buffer is empty on entry, a
summary template that writes "half" and then fails makes `ToTask` return the error
with "half" still in the buffer,
and the next `ToTask` on the same view, with templates that all succeed, returns the
summary "halfFix bug" where the title template alone expands to "Fix bug". -/
theorem ToTask_error_leaves_buffer :
    widgetIssue.buf = "" ∧
    (widgetIssue.ToTask failingTemplates).1.2 = some "boom" ∧
    (widgetIssue.ToTask failingTemplates).2.buf = "half" ∧
    (titleTemplates.Summary (widgetIssue.ToTask failingTemplates).2).1 = "Fix bug" ∧
    (((widgetIssue.ToTask failingTemplates).2).ToTask titleTemplates).1.2 = none ∧
    (((widgetIssue.ToTask failingTemplates).2).ToTask titleTemplates).1.1.Summary
      = "halfFix bug" := by
  decide

/-! ## Properties of `Init` -/

theorem digitValue_digitChar (k : Nat) (h : k < 10) : digitValue (Nat.digitChar k) = k := by
  interval_cases k <;> rfl

theorem digitChar_ne_minus (k : Nat) (h : k < 10) : Nat.digitChar k ≠ '-' := by
  interval_cases k <;> decide

theorem toDigitsCore_append (fuel n : Nat) (ds : List Char) :
    Nat.toDigitsCore 10 fuel n ds = Nat.toDigitsCore 10 fuel n [] ++ ds := by
  induction fuel generalizing n ds with
  | zero => simp [Nat.toDigitsCore]
  | succ f ih =>
    simp only [Nat.toDigitsCore]
    split_ifs with h
    · simp
    · rw [ih (n / 10) (_ :: ds), ih (n / 10) [_]]
      simp

theorem decimalValue_toDigitsCore (fuel n : Nat) (h : n < fuel) :
    decimalValue (Nat.toDigitsCore 10 fuel n []) = n := by
  induction fuel generalizing n with
  | zero => omega
  | succ f ih =>
    simp only [Nat.toDigitsCore]
    split_ifs with h0
    · have hn : n % 10 = n := by omega
      have hv := digitValue_digitChar (n % 10) (Nat.mod_lt _ (by decide))
      rw [hn] at hv
      simp [decimalValue, hn, hv]
    · rw [toDigitsCore_append]
      have hlt : n / 10 < f := by omega
      have := ih (n / 10) hlt
      unfold decimalValue at this ⊢
      rw [List.foldl_append, this]
      simp [digitValue_digitChar (n % 10) (Nat.mod_lt _ (by decide))]
      omega

theorem toDigitsCore_mem (fuel n : Nat) (c : Char)
    (h : c ∈ Nat.toDigitsCore 10 fuel n []) : ∃ k, k < 10 ∧ c = Nat.digitChar k := by
  induction fuel generalizing n with
  | zero => simp [Nat.toDigitsCore] at h
  | succ f ih =>
    simp only [Nat.toDigitsCore] at h
    split_ifs at h with h0
    · simp at h
      exact ⟨n % 10, Nat.mod_lt _ (by decide), h⟩
    · rw [toDigitsCore_append] at h
      simp at h
      rcases h with h | h
      · exact ih _ h
      · exact ⟨n % 10, Nat.mod_lt _ (by decide), h⟩

theorem repr_data (n : Nat) : (Nat.repr n).data = Nat.toDigitsCore 10 (n + 1) n [] := rfl

theorem repr_injective (a b : Nat) (h : Nat.repr a = Nat.repr b) : a = b := by
  have hd : (Nat.repr a).data = (Nat.repr b).data := by rw [h]
  rw [repr_data, repr_data] at hd
  have ha := decimalValue_toDigitsCore (a + 1) a (by omega)
  have hb := decimalValue_toDigitsCore (b + 1) b (by omega)
  rw [hd] at ha
  omega

theorem repr_no_minus (n : Nat) (l : List Char) : (Nat.repr n).data ≠ '-' :: l := by
  intro h
  have hm : '-' ∈ (Nat.repr n).data := by rw [h]; simp
  rw [repr_data] at hm
  obtain ⟨k, hk, hc⟩ := toDigitsCore_mem _ _ _ hm
  exact digitChar_ne_minus k hk hc.symm

theorem Itoa_injective (a b : Int) (h : Itoa a = Itoa b) : a = b := by
  have hd : (Itoa a).data = (Itoa b).data := by rw [h]
  cases a with
  | ofNat m =>
    cases b with
    | ofNat n =>
      simp only [Itoa] at h
      rw [repr_injective m n h]
    | negSucc n =>
      simp only [Itoa, String.data_append] at hd
      exact absurd hd (repr_no_minus m _)
  | negSucc m =>
    cases b with
    | ofNat n =>
      simp only [Itoa, String.data_append] at hd
      exact absurd hd.symm (repr_no_minus n _)
    | negSucc n =>
      simp only [Itoa, String.data_append] at hd
      have hd2 : (Nat.repr (m + 1)).data = (Nat.repr (n + 1)).data := by
        simpa using hd
      have := repr_injective (m + 1) (n + 1) (String.ext hd2)
      have hmn : m = n := by omega
      rw [hmn]

theorem split_at_separator {α : Type} (z : α) (a a2 r r2 : List α) (ha : z ∉ a) (ha2 : z ∉ a2)
    (h : a ++ z :: r = a2 ++ z :: r2) : a = a2 ∧ r = r2 := by
  induction a generalizing a2 with
  | nil =>
    cases a2 with
    | nil => simpa using h
    | cons y ys =>
      simp at h
      simp at ha2
      exact absurd h.1 ha2.1
  | cons x xs ih =>
    cases a2 with
    | nil =>
      simp at h
      simp at ha
      exact absurd h.1.symm ha.1
    | cons y ys =>
      simp at h ha ha2
      obtain ⟨h1, h2⟩ := ih ys ha.2 ha2.2 h.2
      exact ⟨by rw [h.1, h1], h2⟩

theorem hashInput_data (o n : String) (k : Int) :
    (hashInput o n k).data =
      'G' :: 'H' :: Char.ofNat 0 :: (o.data ++ Char.ofNat 0 :: (n.data ++ Char.ofNat 0 :: (Itoa k).data)) := by
  simp [hashInput, sep, String.singleton, String.data_append]

theorem hashInput_injective (o n o2 n2 : String) (k k2 : Int)
    (ho : Char.ofNat 0 ∉ o.data) (hn : Char.ofNat 0 ∉ n.data)
    (ho2 : Char.ofNat 0 ∉ o2.data) (hn2 : Char.ofNat 0 ∉ n2.data)
    (h : hashInput o n k = hashInput o2 n2 k2) : o = o2 ∧ n = n2 ∧ k = k2 := by
  have hd : (hashInput o n k).data = (hashInput o2 n2 k2).data := by rw [h]
  rw [hashInput_data, hashInput_data] at hd
  simp only [List.cons.injEq, true_and] at hd
  obtain ⟨h1, hr⟩ := split_at_separator _ _ _ _ _ ho ho2 hd
  obtain ⟨h2, hr2⟩ := split_at_separator _ _ _ _ _ hn hn2 hr
  exact ⟨String.ext h1, String.ext h2, Itoa_injective k k2 (String.ext hr2)⟩

theorem Init_uuidHash (lib : HashLib) (id : IssueData) (o n : String) (i : Issue) :
    (id.Init lib o n i).uuidHash = hashInput o n i.Number := by
  simp [IssueData.Init, hashInput, empty_append_string]

theorem Init_UUID (lib : HashLib) (id : IssueData) (o n : String) (i : Issue) :
    (id.Init lib o n i).UUID = lib.uuidString (lib.md5Sum (hashInput o n i.Number)) := by
  simp [IssueData.Init, hashInput, empty_append_string]

/-- C5. The identity key is a function of exactly (owner, name, number) and is
collision-free on separator-free scopes: whatever state the `IssueData` is in from
earlier calls and whatever the other issue fields are, the bytes fed to the hash are
"GH", `\x00`, owner, `\x00`, name, `\x00`, decimal number; for owners and names
without a `\x00` these bytes are the same in two calls if and only if owner, name and
number are the same; and equal triples give the same UUID. -/
theorem Init_key_exact (lib : HashLib) (id id2 : IssueData) (i i2 : Issue)
    (o n o2 n2 : String)
    (ho : Char.ofNat 0 ∉ o.data) (hn : Char.ofNat 0 ∉ n.data)
    (ho2 : Char.ofNat 0 ∉ o2.data) (hn2 : Char.ofNat 0 ∉ n2.data) :
    (id.Init lib o n i).uuidHash = "GH" ++ sep ++ o ++ sep ++ n ++ sep ++ Itoa i.Number ∧
    ((id.Init lib o n i).uuidHash = (id2.Init lib o2 n2 i2).uuidHash ↔
      (o = o2 ∧ n = n2 ∧ i.Number = i2.Number)) ∧
    ((o = o2 ∧ n = n2 ∧ i.Number = i2.Number) →
      (id.Init lib o n i).UUID = (id2.Init lib o2 n2 i2).UUID) := by
  refine ⟨Init_uuidHash lib id o n i, ?_, ?_⟩
  · rw [Init_uuidHash, Init_uuidHash]
    constructor
    · exact hashInput_injective o n o2 n2 _ _ ho hn ho2 hn2
    · rintro ⟨h1, h2, h3⟩
      rw [h1, h2, h3]
  · rintro ⟨h1, h2, h3⟩
    rw [Init_UUID, Init_UUID, h1, h2, h3]

/-- Witness for C5: ("ab","c") and ("a","bc") give different keys, and
issue 42 of acme/widgets gets the same UUID before and after its title, body and
state were edited, also on a view that was initialised before. -/
theorem Init_key_exact_witness :
    (NewIssueData.Init listingLib "ab" "c" issueFixBug).uuidHash ≠
      (NewIssueData.Init listingLib "a" "bc" issueFixBug).uuidHash ∧
    (NewIssueData.Init listingLib "acme" "widgets" issueFixBug).UUID =
      ((NewIssueData.Init listingLib "other" "repo" issueFixBug).Init listingLib
        "acme" "widgets" issueRetitled).UUID :=
  ⟨fun h => absurd ((Init_key_exact listingLib NewIssueData NewIssueData issueFixBug issueFixBug
      "ab" "c" "a" "bc" (by decide) (by decide) (by decide) (by decide)).2.1.mp h).1 (by decide),
   (Init_key_exact listingLib NewIssueData (NewIssueData.Init listingLib "other" "repo" issueFixBug)
      issueFixBug issueRetitled "acme" "widgets" "acme" "widgets"
      (by decide) (by decide) (by decide) (by decide)).2.2 ⟨rfl, rfl, rfl⟩⟩

/-- C6 (counterexample). The scopes ("a\x00b", "c") and ("a", "b\x00c") differ, yet
for issue 42 `Init` feeds the same bytes to the hash for both, so it derives the same
UUID for both whatever the digest is. -/
theorem Init_collision_with_separator :
    (ownerWithSep, "c") ≠ ("a", nameWithSep) ∧
    (NewIssueData.Init listingLib ownerWithSep "c" issueFixBug).uuidHash =
      (NewIssueData.Init listingLib "a" nameWithSep issueFixBug).uuidHash ∧
    (∀ lib : HashLib, (NewIssueData.Init lib ownerWithSep "c" issueFixBug).UUID =
      (NewIssueData.Init lib "a" nameWithSep issueFixBug).UUID) := by
  refine ⟨by decide, by decide, ?_⟩
  intro lib
  have h : hashInput ownerWithSep "c" issueFixBug.Number =
      hashInput "a" nameWithSep issueFixBug.Number := by decide
  rw [Init_UUID, Init_UUID, h]

/-- C6 (amended). For owners and names without a `\x00`, whenever any of owner, name or
number differs, the bytes `Init` feeds to the hash differ; each identifier is the
rendered digest of those bytes, so two such identifiers can only coincide when the
digest gives the same result for these two different byte sequences. -/
theorem Init_key_differs (lib : HashLib) (id id2 : IssueData) (i i2 : Issue)
    (o n o2 n2 : String)
    (ho : Char.ofNat 0 ∉ o.data) (hn : Char.ofNat 0 ∉ n.data)
    (ho2 : Char.ofNat 0 ∉ o2.data) (hn2 : Char.ofNat 0 ∉ n2.data)
    (hne : (o, n, i.Number) ≠ (o2, n2, i2.Number)) :
    (id.Init lib o n i).uuidHash ≠ (id2.Init lib o2 n2 i2).uuidHash ∧
    ((id.Init lib o n i).UUID = (id2.Init lib o2 n2 i2).UUID →
      lib.uuidString (lib.md5Sum (id.Init lib o n i).uuidHash) =
        lib.uuidString (lib.md5Sum (id2.Init lib o2 n2 i2).uuidHash)) := by
  refine ⟨?_, ?_⟩
  · rw [Init_uuidHash, Init_uuidHash]
    intro h
    obtain ⟨h1, h2, h3⟩ := hashInput_injective o n o2 n2 _ _ ho hn ho2 hn2 h
    apply hne
    rw [h1, h2, h3]
  · intro h
    rw [Init_UUID, Init_UUID] at h
    rw [Init_uuidHash, Init_uuidHash]
    exact h

/-- Witness for C6 (amended): issue 42 of acme/widgets and issue 42 of acme/gadgets get
different keys, and with a digest that lists its input, different UUIDs. -/
theorem Init_key_differs_witness :
    (NewIssueData.Init listingLib "acme" "widgets" issueFixBug).uuidHash ≠
      (NewIssueData.Init listingLib "acme" "gadgets" issueFixBug).uuidHash ∧
    (NewIssueData.Init listingLib "acme" "widgets" issueFixBug).UUID ≠
      (NewIssueData.Init listingLib "acme" "gadgets" issueFixBug).UUID :=
  ⟨(Init_key_differs listingLib NewIssueData NewIssueData issueFixBug issueFixBug
    "acme" "widgets" "acme" "gadgets" (by decide) (by decide) (by decide) (by decide)
    (by decide)).1, by decide⟩

/-! ## Properties of `ProcessTask` -/

theorem path_eq_iff (repo p q file : String) :
    MustGetRepoPath repo p file = MustGetRepoPath repo q file ↔ p = q := by
  simp [MustGetRepoPath]

theorem FS_eq {β : Type} (fs1 fs2 : FS β) (h1 : fs1.files = fs2.files)
    (h2 : fs1.writeErr = fs2.writeErr) : fs1 = fs2 := by
  cases fs1
  cases fs2
  simp_all

theorem Remove_ok {β : Type} (fs : FS β) (filepath : Path) (f : File β)
    (hf : fs.files filepath = some f) (hr : f.removeErr = none) :
    Remove fs filepath = .ok (without fs filepath) := by
  simp [Remove, hf, hr, without]

theorem ReadFile_ok {β : Type} (fs : FS β) (filepath : Path) (f : File β)
    (hf : fs.files filepath = some f) (hr : f.readErr = none) :
    ReadFile fs filepath = .ok f.data := by
  simp [ReadFile, hf, hr]

theorem ReadFile_missing {β : Type} (fs : FS β) (filepath : Path)
    (hf : fs.files filepath = none) :
    ReadFile fs filepath = .error "no such file or directory" := by
  simp [ReadFile, hf]

/-- What the loop has done when it is left normally: either nothing was found, the
store is untouched and no scanned partition holds a readable record file; or the file
of one scanned partition was read, parsed and removed. -/
theorem scan_done {β : Type} (c : Codec β) (repo uuid : String) (l : List String) (fs : FS β)
    (found : Bool) (lt : Task) (fs1 : FS β)
    (h : scan c repo uuid l fs = .done found lt fs1) :
    (found = false ∧ lt = Task.zero ∧ fs1 = fs ∧
      ∀ p ∈ l, ∀ f, fs.files (MustGetRepoPath repo p (uuid ++ ".yml")) = some f →
        f.readErr ≠ none) ∨
    (found = true ∧ ∃ p ∈ l, ∃ f,
      fs.files (MustGetRepoPath repo p (uuid ++ ".yml")) = some f ∧
      c.unmarshal f.data = .ok lt ∧
      fs1 = without fs (MustGetRepoPath repo p (uuid ++ ".yml"))) := by
  induction l with
  | nil =>
    simp only [scan, Scan.done.injEq] at h
    obtain ⟨h1, h2, h3⟩ := h
    left
    exact ⟨h1.symm, h2.symm, h3.symm, by simp⟩
  | cons status rest ih =>
    simp only [scan] at h
    cases hfile : fs.files (MustGetRepoPath repo status (uuid ++ ".yml")) with
    | none =>
      rw [ReadFile_missing fs _ hfile] at h
      simp only [] at h
      rcases ih h with ⟨h1, h2, h3, h4⟩ | ⟨h1, p, hp, f, h2, h3, h4⟩
      · left
        refine ⟨h1, h2, h3, ?_⟩
        intro p hp f hf
        rcases List.mem_cons.mp hp with rfl | hp
        · rw [hfile] at hf
          cases hf
        · exact h4 p hp f hf
      · right
        exact ⟨h1, p, List.mem_cons_of_mem _ hp, f, h2, h3, h4⟩
    | some f0 =>
      cases hread : f0.readErr with
      | some e =>
        have hR : ReadFile fs (MustGetRepoPath repo status (uuid ++ ".yml")) = .error e := by
          simp [ReadFile, hfile, hread]
        rw [hR] at h
        simp only [] at h
        rcases ih h with ⟨h1, h2, h3, h4⟩ | ⟨h1, p, hp, f, h2, h3, h4⟩
        · left
          refine ⟨h1, h2, h3, ?_⟩
          intro p hp f hf
          rcases List.mem_cons.mp hp with rfl | hp
          · rw [hfile] at hf
            cases hf
            simp [hread]
          · exact h4 p hp f hf
        · right
          exact ⟨h1, p, List.mem_cons_of_mem _ hp, f, h2, h3, h4⟩
      | none =>
        rw [ReadFile_ok fs _ f0 hfile hread] at h
        simp only [] at h
        cases hum : c.unmarshal f0.data with
        | error e =>
          rw [hum] at h
          simp at h
        | ok t =>
          rw [hum] at h
          simp only [] at h
          cases hrem : f0.removeErr with
          | some e =>
            have hR : Remove fs (MustGetRepoPath repo status (uuid ++ ".yml")) = .error e := by
              simp [Remove, hfile, hrem]
            rw [hR] at h
            simp at h
          | none =>
            rw [Remove_ok fs _ f0 hfile hrem] at h
            simp only [Scan.done.injEq] at h
            obtain ⟨h1, h2, h3⟩ := h
            right
            exact ⟨h1.symm, status, List.mem_cons_self _ _, f0, hfile, by rw [hum, h2], h3.symm⟩

/-- The loop finds the record when exactly one scanned partition holds a file for the
identifier and that file can be read, parsed and removed. -/
theorem scan_finds {β : Type} (c : Codec β) (repo uuid : String) (l : List String) (fs : FS β)
    (p0 : String) (f : File β) (lt : Task) (hp0 : p0 ∈ l)
    (hf : fs.files (MustGetRepoPath repo p0 (uuid ++ ".yml")) = some f)
    (hread : f.readErr = none) (hrem : f.removeErr = none)
    (hum : c.unmarshal f.data = .ok lt)
    (honly : ∀ p ∈ l, p ≠ p0 → fs.files (MustGetRepoPath repo p (uuid ++ ".yml")) = none) :
    scan c repo uuid l fs =
      .done true lt (without fs (MustGetRepoPath repo p0 (uuid ++ ".yml"))) := by
  induction l with
  | nil => simp at hp0
  | cons status rest ih =>
    simp only [scan]
    by_cases hs : status = p0
    · subst hs
      rw [ReadFile_ok fs _ f hf hread]
      simp only []
      rw [hum]
      simp only []
      rw [Remove_ok fs _ f hf hrem]
    · have hnone := honly status (List.mem_cons_self _ _) hs
      rw [ReadFile_missing fs _ hnone]
      simp only []
      have hp0r : p0 ∈ rest := by
        rcases List.mem_cons.mp hp0 with h | h
        · exact absurd h.symm hs
        · exact h
      exact ih hp0r (fun p hp hne => honly p (List.mem_cons_of_mem _ hp) hne)

theorem merge_true (lt task : Task) :
    merge true lt task =
      { task with
        Notes := if lt.Notes = "" then task.Notes else lt.Notes,
        Status := if task.Status = "pending" ∧
            (lt.Status = "active" ∨ lt.Status = "paused") then lt.Status else task.Status } := by
  by_cases hn : lt.Notes = "" <;>
  by_cases hs : task.Status = "pending" ∧ (lt.Status = "active" ∨ lt.Status = "paused") <;>
    simp [merge, hn, hs]

theorem merge_false (lt task : Task) : merge false lt task = task := by
  simp [merge]

theorem merge_UUID (found : Bool) (lt task : Task) : (merge found lt task).UUID = task.UUID := by
  cases found
  · rw [merge_false]
  · rw [merge_true]

theorem merge_Status (found : Bool) (lt task : Task) :
    (merge found lt task).Status = task.Status ∨
    (merge found lt task).Status = "active" ∨ (merge found lt task).Status = "paused" := by
  cases found
  · rw [merge_false]
    exact Or.inl rfl
  · rw [merge_true]
    by_cases hs : task.Status = "pending" ∧ (lt.Status = "active" ∨ lt.Status = "paused")
    · right
      simp [hs]
    · left
      simp [hs]

theorem merge_idem (found : Bool) (lt task : Task) :
    merge true (merge found lt task) task = merge found lt task := by
  have e1 : ("active" : String) ≠ "pending" := by decide
  have e2 : ("paused" : String) ≠ "pending" := by decide
  cases task with
  | mk u st cr re su pj pr no tg =>
  cases found with
  | false =>
    by_cases hn : no = "" <;> by_cases hs : st = "pending" <;>
      simp_all [merge]
  | true =>
    by_cases hn : lt.Notes = "" <;> by_cases hn2 : no = "" <;>
    by_cases hs : st = "pending" <;>
    by_cases ha : lt.Status = "active" <;> by_cases hp : lt.Status = "paused" <;>
      simp_all [merge]

theorem scan_writeErr {β : Type} (c : Codec β) (repo uuid : String) (l : List String)
    (fs : FS β) (found : Bool) (lt : Task) (fs1 : FS β)
    (h : scan c repo uuid l fs = .done found lt fs1) : fs1.writeErr = fs.writeErr := by
  rcases scan_done c repo uuid l fs found lt fs1 h with ⟨-, -, h3, -⟩ | ⟨-, p, -, f, -, -, h4⟩
  · rw [h3]
  · rw [h4]
    rfl

/-- After the loop, no scanned partition holds a record file for the identifier, when
before it at most one did and every such file could be read. -/
theorem scan_clears {β : Type} (c : Codec β) (repo uuid : String) (l : List String)
    (fs : FS β) (found : Bool) (lt : Task) (fs1 : FS β)
    (h : scan c repo uuid l fs = .done found lt fs1)
    (hone : ∀ p ∈ l, ∀ q ∈ l, holds fs repo uuid p = true → holds fs repo uuid q = true → p = q)
    (hread : ∀ p ∈ l, ∀ f, fs.files (MustGetRepoPath repo p (uuid ++ ".yml")) = some f →
      f.readErr = none) :
    ∀ p ∈ l, fs1.files (MustGetRepoPath repo p (uuid ++ ".yml")) = none := by
  intro p hp
  rcases scan_done c repo uuid l fs found lt fs1 h with ⟨-, -, h3, h4⟩ | ⟨-, p0, hp0, f, h2, -, h4⟩
  · rw [h3]
    cases hfile : fs.files (MustGetRepoPath repo p (uuid ++ ".yml")) with
    | none => rfl
    | some f => exact absurd (hread p hp f hfile) (h4 p hp f hfile)
  · rw [h4]
    by_cases hpp : p = p0
    · simp [without, hpp]
    · have hne : MustGetRepoPath repo p (uuid ++ ".yml") ≠ MustGetRepoPath repo p0 (uuid ++ ".yml") :=
        fun he => hpp ((path_eq_iff _ _ _ _).mp he)
      simp only [without, hne, if_false]
      cases hfile : fs.files (MustGetRepoPath repo p (uuid ++ ".yml")) with
      | none => rfl
      | some g =>
        have h1 : holds fs repo uuid p = true := by simp [holds, hfile]
        have h0 : holds fs repo uuid p0 = true := by simp [holds, h2]
        exact absurd (hone p hp p0 hp0 h1 h0) hpp

theorem without_withFile {β : Type} (fs : FS β) (filepath : Path) (f : File β)
    (h : fs.files filepath = none) : without (withFile fs filepath f) filepath = fs := by
  apply FS_eq
  · funext q
    by_cases hq : q = filepath
    · simp [without, withFile, hq, h]
    · simp [without, withFile, hq]
  · rfl

theorem ProcessTask_of_done {β : Type} (c : Codec β) (sts : List String) (repo : String)
    (task : Task) (fs : FS β) (found : Bool) (lt : Task) (fs1 : FS β)
    (hscan : scan c repo task.UUID sts fs = .done found lt fs1) :
    ProcessTask c sts repo task fs =
      (match (merge found lt task).SaveToDisk c sts repo fs1 with
        | none => .exited
        | some fs2 => .returned none fs2) := by
  unfold ProcessTask
  rw [hscan]

theorem ProcessTask_of_failed {β : Type} (c : Codec β) (sts : List String) (repo : String)
    (task : Task) (fs : FS β) (e : Error)
    (hscan : scan c repo task.UUID sts fs = .failed e) :
    ProcessTask c sts repo task fs = .returned (some e) fs := by
  unfold ProcessTask
  rw [hscan]

/-- What the clean-up has done when it returns: the identifier's file is gone from
every listed partition but the task's own, the file of the task's own partition is
untouched, and nothing was added anywhere. -/
theorem removeOthers_some {β : Type} (repo status file : String) (l : List String)
    (fs fs2 : FS β) (h : removeOthers repo status file l fs = some fs2) :
    (∀ p ∈ l, p ≠ status → fs2.files (MustGetRepoPath repo p file) = none) ∧
    (∀ q, fs2.files q = none ∨ fs2.files q = fs.files q) ∧
    fs2.files (MustGetRepoPath repo status file) = fs.files (MustGetRepoPath repo status file) := by
  induction l generalizing fs with
  | nil =>
    simp only [removeOthers, Option.some.injEq] at h
    subst h
    exact ⟨by simp, fun q => Or.inr rfl, rfl⟩
  | cons st rest ih =>
    simp only [removeOthers] at h
    by_cases hst : st = status
    · simp only [hst, if_true] at h
      obtain ⟨h1, h2, h3⟩ := ih fs h
      refine ⟨?_, h2, h3⟩
      intro p hp hne
      rcases List.mem_cons.mp hp with hp | hp
      · exact absurd (hp.trans hst) hne
      · exact h1 p hp hne
    · simp only [hst, if_false] at h
      cases hfile : fs.files (MustGetRepoPath repo st file) with
      | none =>
        rw [hfile] at h
        simp only [] at h
        obtain ⟨h1, h2, h3⟩ := ih fs h
        refine ⟨?_, h2, h3⟩
        intro p hp hne
        rcases List.mem_cons.mp hp with hp | hp
        · subst hp
          rcases h2 (MustGetRepoPath repo p file) with h | h
          · exact h
          · rw [h, hfile]
        · exact h1 p hp hne
      | some f0 =>
        rw [hfile] at h
        simp only [] at h
        cases hrem : f0.removeErr with
        | some e =>
          have hR : Remove fs (MustGetRepoPath repo st file) = .error e := by
            simp [Remove, hfile, hrem]
          rw [hR] at h
          simp at h
        | none =>
          rw [Remove_ok fs _ f0 hfile hrem] at h
          simp only [] at h
          obtain ⟨h1, h2, h3⟩ := ih _ h
          have hne0 : MustGetRepoPath repo status file ≠ MustGetRepoPath repo st file :=
            fun he => hst ((path_eq_iff _ _ _ _).mp he).symm
          refine ⟨?_, ?_, ?_⟩
          · intro p hp hne
            rcases List.mem_cons.mp hp with hp | hp
            · subst hp
              rcases h2 (MustGetRepoPath repo p file) with h | h
              · exact h
              · rw [h]
                simp [without]
            · exact h1 p hp hne
          · intro q
            rcases h2 q with h | h
            · exact Or.inl h
            · rw [h]
              by_cases hq : q = MustGetRepoPath repo st file
              · left
                simp [without, hq]
              · right
                simp [without, hq]
          · rw [h3]
            simp [without, hne0]

/-- The clean-up changes nothing when no other listed partition holds the file. -/
theorem removeOthers_clean {β : Type} (repo status file : String) (l : List String)
    (fs : FS β)
    (h : ∀ p ∈ l, p ≠ status → fs.files (MustGetRepoPath repo p file) = none) :
    removeOthers repo status file l fs = some fs := by
  induction l with
  | nil => rfl
  | cons st rest ih =>
    have hrest : ∀ p ∈ rest, p ≠ status → fs.files (MustGetRepoPath repo p file) = none :=
      fun p hp hne => h p (List.mem_cons_of_mem _ hp) hne
    simp only [removeOthers]
    by_cases hst : st = status
    · simp only [hst, if_true]
      exact ih hrest
    · simp only [hst, if_false]
      rw [h st (List.mem_cons_self _ _) hst]
      exact ih hrest

theorem WriteFile_ok {β : Type} (fs : FS β) (filepath : Path) (data : β)
    (hw : fs.writeErr filepath = none) :
    WriteFile fs filepath data = .ok
      (withFile fs filepath
        (match fs.files filepath with
          | some old => { old with data := data }
          | none => { data := data, readErr := none, removeErr := none })) := by
  simp [WriteFile, hw, withFile]

theorem WriteFile_error {β : Type} (fs : FS β) (filepath : Path) (data : β) (e : String)
    (hw : fs.writeErr filepath = some e) : WriteFile fs filepath data = .error e := by
  simp [WriteFile, hw]

/-- A failed write ends the call of `SaveToDisk`. -/
theorem SaveToDisk_of_write_error {β : Type} (c : Codec β) (sts : List String) (r : Task)
    (repo : String) (fs : FS β) (e : String)
    (hw : WriteFile fs (MustGetRepoPath repo r.Status (r.UUID ++ ".yml")) (c.marshal r)
      = .error e) :
    r.SaveToDisk c sts repo fs = none := by
  unfold Task.SaveToDisk
  rw [hw]

/-- What `SaveToDisk` has done when it returns: the partition of the task's status holds
the record, and no other listed partition holds a file for the identifier. -/
theorem SaveToDisk_some {β : Type} (c : Codec β) (sts : List String) (r : Task)
    (repo : String) (fs fs2 : FS β) (h : r.SaveToDisk c sts repo fs = some fs2) :
    (∃ f, fs2.files (MustGetRepoPath repo r.Status (r.UUID ++ ".yml")) = some f ∧
      f.data = c.marshal r) ∧
    (∀ p ∈ sts, p ≠ r.Status → fs2.files (MustGetRepoPath repo p (r.UUID ++ ".yml")) = none) := by
  unfold Task.SaveToDisk at h
  cases hwe : fs.writeErr (MustGetRepoPath repo r.Status (r.UUID ++ ".yml")) with
  | some e =>
    rw [WriteFile_error fs _ _ e hwe] at h
    simp at h
  | none =>
    rw [WriteFile_ok fs _ _ hwe] at h
    simp only [] at h
    obtain ⟨h1, -, h3⟩ := removeOthers_some _ _ _ _ _ _ h
    refine ⟨?_, h1⟩
    rw [h3]
    simp only [withFile, if_true]
    refine ⟨_, rfl, ?_⟩
    cases fs.files (MustGetRepoPath repo r.Status (r.UUID ++ ".yml")) <;> rfl

/-- On a store in which no listed partition holds a file for the identifier and the
write succeeds, `SaveToDisk` returns the store with the one new record file. -/
theorem SaveToDisk_clean {β : Type} (c : Codec β) (sts : List String) (r : Task)
    (repo : String) (fs : FS β)
    (hw : fs.writeErr (MustGetRepoPath repo r.Status (r.UUID ++ ".yml")) = none)
    (hown : fs.files (MustGetRepoPath repo r.Status (r.UUID ++ ".yml")) = none)
    (hnone : ∀ p ∈ sts, p ≠ r.Status →
      fs.files (MustGetRepoPath repo p (r.UUID ++ ".yml")) = none) :
    r.SaveToDisk c sts repo fs = some
      (withFile fs (MustGetRepoPath repo r.Status (r.UUID ++ ".yml"))
        { data := c.marshal r, readErr := none, removeErr := none }) := by
  unfold Task.SaveToDisk
  rw [WriteFile_ok fs _ _ hw, hown]
  simp only []
  apply removeOthers_clean
  intro p hp hne
  have hne2 : MustGetRepoPath repo p (r.UUID ++ ".yml") ≠
      MustGetRepoPath repo r.Status (r.UUID ++ ".yml") :=
    fun he => hne ((path_eq_iff _ _ _ _).mp he)
  simp only [withFile, hne2, if_false]
  exact hnone p hp hne

/-- C1. Notes precedence in `ProcessTask`: whenever the scan loop completes with
`found` and `localTask` set and `ProcessTask` returns, the store holds, in the
partition of the merged record's status, a record file whose contents are the
serialised merged record, and that record has the existing record's notes when a
record was found and its notes are non-empty (whatever the candidate's notes are), the
candidate's notes when a record was found with empty notes, and the candidate's notes
when no record was found. -/
theorem ProcessTask_notes_precedence {β : Type} (c : Codec β) (sts : List String)
    (repo : String) (task : Task) (fs : FS β) (found : Bool) (localTask : Task)
    (fs1 fs2 : FS β)
    (hscan : scan c repo task.UUID sts fs = .done found localTask fs1)
    (hret : ProcessTask c sts repo task fs = .returned none fs2) :
    ∃ r f, r = merge found localTask task ∧
      fs2.files (MustGetRepoPath repo r.Status (task.UUID ++ ".yml")) = some f ∧
      f.data = c.marshal r ∧
      (found = true → localTask.Notes ≠ "" → r.Notes = localTask.Notes) ∧
      (found = true → localTask.Notes = "" → r.Notes = task.Notes) ∧
      (found = false → r.Notes = task.Notes) := by
  rw [ProcessTask_of_done c sts repo task fs found localTask fs1 hscan] at hret
  cases hsave : (merge found localTask task).SaveToDisk c sts repo fs1 with
  | none =>
    rw [hsave] at hret
    simp at hret
  | some fs3 =>
    rw [hsave] at hret
    simp only [Outcome.returned.injEq, true_and] at hret
    subst hret
    obtain ⟨⟨f, hf, hd⟩, -⟩ := SaveToDisk_some c sts _ repo fs1 fs3 hsave
    rw [merge_UUID] at hf
    refine ⟨_, f, rfl, hf, hd, ?_, ?_, ?_⟩
    · intro hfound hn
      rw [hfound, merge_true]
      simp [hn]
    · intro hfound hn
      rw [hfound, merge_true]
      simp [hn]
    · intro hfound
      rw [hfound, merge_false]

/-- Witness for C1: the store holds the task in the active partition with notes
"investigating", the candidate brings other non-empty notes, and after the call the
record file in the active partition holds the notes "investigating". -/
theorem ProcessTask_notes_precedence_witness :
    candidate.Notes ≠ "" ∧ candidate.Notes ≠ localActive.Notes ∧
    ∃ f, (ProcessTask plainCodec knownStatuses "repo" candidate activeStore).fileAt
        (MustGetRepoPath "repo" "active" "u42.yml") = some f ∧
      f.data.Notes = "investigating" := by
  obtain ⟨r, f, hr, hf, hd, h1, -, -⟩ := ProcessTask_notes_precedence plainCodec knownStatuses
    "repo" candidate activeStore true localActive
    (without activeStore (MustGetRepoPath "repo" "active" "u42.yml"))
    (withFile (without activeStore (MustGetRepoPath "repo" "active" "u42.yml"))
      (MustGetRepoPath "repo" "active" "u42.yml")
      { data := merge true localActive candidate, readErr := none, removeErr := none })
    rfl rfl
  subst hr
  refine ⟨by decide, by decide, f, hf, ?_⟩
  rw [hd]
  exact h1 rfl (by decide)

/-- C2 (the code at the failing input). The task sits in the active partition, in a
record file whose contents do not carry the status (the directory does). The scan
finds and parses it, and the parsed record's status is empty, so the status rule of
process.go 51-54 does not apply: the re-import of the pending candidate returns `nil`
and leaves the record in the pending partition, with status "pending" and the local
notes, and no record file in the active partition. -/
theorem ProcessTask_active_record_becomes_pending :
    knownStatuses.filter (holds movedStore "repo" "u42") = ["active"] ∧
    scan bodyCodec "repo" candidate.UUID knownStatuses movedStore =
      .done true (bodyCodec.marshal localActive)
        (without movedStore (MustGetRepoPath "repo" "active" "u42.yml")) ∧
    (bodyCodec.marshal localActive).Status = "" ∧
    merge true (bodyCodec.marshal localActive) candidate =
      { candidate with Notes := "investigating" } ∧
    (ProcessTask bodyCodec knownStatuses "repo" candidate movedStore).partitions
      knownStatuses "repo" "u42" = some ["pending"] ∧
    ((ProcessTask bodyCodec knownStatuses "repo" candidate movedStore).fileAt
      (MustGetRepoPath "repo" "pending" "u42.yml")).map (fun f => f.data) =
      some (bodyCodec.marshal { candidate with Notes := "investigating" }) := by
  refine ⟨by decide, rfl, rfl, by decide, by decide, by decide⟩

/-- C3. Single-copy invariant of `ProcessTask`: for every store (also one that holds
more than one record file for the identifier, or one whose record file cannot be
read), after a `ProcessTask` that returns `nil` the partition named by the written
record's final (merged) status holds a record file for the identifier, this file holds
the serialised merged record, and no other listed status partition holds a record
file for the identifier. -/
theorem ProcessTask_single_copy {β : Type} (c : Codec β) (sts : List String) (repo : String)
    (task : Task) (fs fs2 : FS β)
    (hret : ProcessTask c sts repo task fs = .returned none fs2) :
    ∃ found localTask fs1 r f,
      scan c repo task.UUID sts fs = .done found localTask fs1 ∧
      r = merge found localTask task ∧
      fs2.files (MustGetRepoPath repo r.Status (task.UUID ++ ".yml")) = some f ∧
      f.data = c.marshal r ∧
      holds fs2 repo task.UUID r.Status = true ∧
      (∀ p ∈ sts, p ≠ r.Status → holds fs2 repo task.UUID p = false) := by
  cases hscan : scan c repo task.UUID sts fs with
  | failed e =>
    rw [ProcessTask_of_failed c sts repo task fs e hscan] at hret
    simp at hret
  | done found lt fs1 =>
    rw [ProcessTask_of_done c sts repo task fs found lt fs1 hscan] at hret
    cases hsave : (merge found lt task).SaveToDisk c sts repo fs1 with
    | none =>
      rw [hsave] at hret
      simp at hret
    | some fs3 =>
      rw [hsave] at hret
      simp only [Outcome.returned.injEq, true_and] at hret
      subst hret
      obtain ⟨⟨f, hf, hd⟩, hothers⟩ := SaveToDisk_some c sts _ repo fs1 fs3 hsave
      rw [merge_UUID] at hf hothers
      refine ⟨found, lt, fs1, _, f, rfl, rfl, hf, hd, ?_, ?_⟩
      · simp [holds, hf]
      · intro p hp hne
        simp [holds, hothers p hp hne]

/-- Witness for C3: the one record file, in the active partition, cannot be read; the
scan does not find it, and after the import of the pending candidate the identifier
has a record file in the pending partition and in no other listed partition. -/
theorem ProcessTask_single_copy_witness :
    knownStatuses.filter (holds unreadableStore "repo" "u42") = ["active"] ∧
    (ProcessTask plainCodec knownStatuses "repo" candidate unreadableStore).partitions
      knownStatuses "repo" "u42" = some ["pending"] ∧
    ∃ fs2, ProcessTask plainCodec knownStatuses "repo" candidate unreadableStore =
        .returned none fs2 ∧
      holds fs2 "repo" "u42" "pending" = true ∧
      (∀ p ∈ knownStatuses, p ≠ "pending" → holds fs2 "repo" "u42" p = false) := by
  refine ⟨by decide, by decide, _, rfl, ?_⟩
  obtain ⟨found, lt, fs1, r, f, hscan, hr, -, -, h1, h2⟩ := ProcessTask_single_copy plainCodec
    knownStatuses "repo" candidate unreadableStore _ rfl
  have hs : scan plainCodec "repo" candidate.UUID knownStatuses unreadableStore =
      .done false Task.zero unreadableStore := rfl
  rw [hs] at hscan
  simp only [Scan.done.injEq] at hscan
  obtain ⟨hfd, hlt, -⟩ := hscan
  subst hfd hlt hr
  exact ⟨h1, h2⟩

/-- C9 (counterexample). On a full disk the scan finds, parses and removes the copy in
the active partition and the write of the merged record fails with "no space left on
device"; `ProcessTask` does not return this error: the call of `SaveToDisk` does not
return and the process ends there. -/
theorem ProcessTask_write_failure_exits :
    scan plainCodec "repo" candidate.UUID knownStatuses fullDiskStore =
      .done true localActive (without fullDiskStore (MustGetRepoPath "repo" "active" "u42.yml")) ∧
    WriteFile (without fullDiskStore (MustGetRepoPath "repo" "active" "u42.yml"))
        (MustGetRepoPath "repo" "active" "u42.yml")
        (plainCodec.marshal (merge true localActive candidate)) =
      .error "no space left on device" ∧
    ProcessTask plainCodec knownStatuses "repo" candidate fullDiskStore = .exited ∧
    ¬ ∃ fs2, ProcessTask plainCodec knownStatuses "repo" candidate fullDiskStore =
      .returned (some (.os "no space left on device")) fs2 := by
  refine ⟨rfl, rfl, rfl, ?_⟩
  rintro ⟨fs2, h⟩
  have he : ProcessTask plainCodec knownStatuses "repo" candidate fullDiskStore = .exited := rfl
  rw [he] at h
  cases h

/-- C9 (amended). A store-write failure is not returned by `ProcessTask`: whenever the
scan loop completes, a failed write of the merged record ends the call inside
`SaveToDisk` without a return; when `SaveToDisk` returns, `ProcessTask` returns `nil`;
and in no case does `ProcessTask` return an error. -/
theorem ProcessTask_returns_no_write_error {β : Type} (c : Codec β) (sts : List String)
    (repo : String) (task : Task) (fs : FS β) (found : Bool) (localTask : Task) (fs1 : FS β)
    (hscan : scan c repo task.UUID sts fs = .done found localTask fs1) :
    (∀ e, WriteFile fs1
        (MustGetRepoPath repo (merge found localTask task).Status (task.UUID ++ ".yml"))
        (c.marshal (merge found localTask task)) = .error e →
      ProcessTask c sts repo task fs = .exited) ∧
    (∀ fs2, (merge found localTask task).SaveToDisk c sts repo fs1 = some fs2 →
      ProcessTask c sts repo task fs = .returned none fs2) ∧
    (∀ e fs2, ProcessTask c sts repo task fs ≠ .returned (some e) fs2) := by
  rw [ProcessTask_of_done c sts repo task fs found localTask fs1 hscan]
  refine ⟨?_, ?_, ?_⟩
  · intro e he
    rw [← merge_UUID found localTask task] at he
    rw [SaveToDisk_of_write_error c sts _ repo fs1 e he]
  · intro fs2 h
    rw [h]
  · intro e fs2
    cases (merge found localTask task).SaveToDisk c sts repo fs1 <;> simp

/-- Witness for C9 (amended): on the full disk the scan completes, the write fails and
the call does not return; on the same store with a disk that takes the write it
returns `nil`. -/
theorem ProcessTask_returns_no_write_error_witness :
    ProcessTask plainCodec knownStatuses "repo" candidate fullDiskStore = .exited ∧
    (ProcessTask plainCodec knownStatuses "repo" candidate activeStore).partitions
      knownStatuses "repo" "u42" = some ["active"] :=
  ⟨(ProcessTask_returns_no_write_error plainCodec knownStatuses "repo" candidate fullDiskStore
      true localActive (without fullDiskStore (MustGetRepoPath "repo" "active" "u42.yml"))
      rfl).1 "no space left on device" rfl,
   by decide⟩

/-- C4 (counterexample). The store holds one readable and removable copy, in the
active partition, every write succeeds and the codec round-trips every task. The
candidate's status "bogus" is not a status the scan visits. The first run merges the
local notes into the record and writes it to the partition "bogus"; the second run
does not find that record and overwrites it with the candidate's own notes: the store
after two runs is not the store after one. -/
theorem ProcessTask_stray_status_not_idempotent :
    knownStatuses.filter (holds activeStore "repo" "u42") = ["active"] ∧
    (∀ t, plainCodec.unmarshal (plainCodec.marshal t) = .ok t) ∧
    ((ProcessTask plainCodec knownStatuses "repo" strayCandidate activeStore).fileAt
      (MustGetRepoPath "repo" "bogus" "u42.yml")).map (fun f => f.data.Notes)
      = some "investigating" ∧
    ((secondRun plainCodec knownStatuses "repo" strayCandidate
        (ProcessTask plainCodec knownStatuses "repo" strayCandidate activeStore)).fileAt
      (MustGetRepoPath "repo" "bogus" "u42.yml")).map (fun f => f.data.Notes)
      = some "https://example.org/42" ∧
    secondRun plainCodec knownStatuses "repo" strayCandidate
        (ProcessTask plainCodec knownStatuses "repo" strayCandidate activeStore) ≠
      ProcessTask plainCodec knownStatuses "repo" strayCandidate activeStore := by
  refine ⟨by decide, fun _ => rfl, by decide, by decide, ?_⟩
  intro h
  have h2 := congrArg (fun o : Outcome Task =>
    (o.fileAt (MustGetRepoPath "repo" "bogus" "u42.yml")).map (fun f => f.data.Notes)) h
  revert h2
  decide

/-- C4 (amended). Re-import is idempotent for a candidate whose status the scan
visits: when the candidate's status, "active" and "paused" are among the listed
statuses, at most one listed partition holds a record file for the identifier, every
such file can be read, every write succeeds and the codec round-trips every task, a
second `ProcessTask` with the same candidate ends exactly as the first one did, with
the same store contents. (A remove that fails, or a file that does not parse, makes
both runs return the same error with the store untouched.) -/
theorem ProcessTask_idempotent {β : Type} (c : Codec β) (sts : List String) (repo : String)
    (task : Task) (fs : FS β)
    (hact : "active" ∈ sts) (hpau : "paused" ∈ sts) (hst : task.Status ∈ sts)
    (hone : ∀ p ∈ sts, ∀ q ∈ sts,
      holds fs repo task.UUID p = true → holds fs repo task.UUID q = true → p = q)
    (hread : ∀ p ∈ sts, ∀ f,
      fs.files (MustGetRepoPath repo p (task.UUID ++ ".yml")) = some f → f.readErr = none)
    (hw : ∀ q, fs.writeErr q = none)
    (hrt : ∀ t, c.unmarshal (c.marshal t) = .ok t) :
    secondRun c sts repo task (ProcessTask c sts repo task fs) =
      ProcessTask c sts repo task fs := by
  cases hscan : scan c repo task.UUID sts fs with
  | failed e =>
    rw [ProcessTask_of_failed c sts repo task fs e hscan]
    exact ProcessTask_of_failed c sts repo task fs e hscan
  | done found lt fs1 =>
    have hwe := scan_writeErr c repo task.UUID sts fs found lt fs1 hscan
    have hclear := scan_clears c repo task.UUID sts fs found lt fs1 hscan hone hread
    have hU := merge_UUID found lt task
    have hmem : (merge found lt task).Status ∈ sts := by
      rcases merge_Status found lt task with h | h | h
      · rw [h]; exact hst
      · rw [h]; exact hact
      · rw [h]; exact hpau
    have hsave : (merge found lt task).SaveToDisk c sts repo fs1 = some
        (withFile fs1 (MustGetRepoPath repo (merge found lt task).Status (task.UUID ++ ".yml"))
          { data := c.marshal (merge found lt task), readErr := none, removeErr := none }) := by
      have h := SaveToDisk_clean c sts (merge found lt task) repo fs1
        (by rw [hwe]; exact hw _) (by rw [hU]; exact hclear _ hmem)
        (by
          intro p hp _
          rw [hU]
          exact hclear p hp)
      rw [hU] at h
      exact h
    have hP : ProcessTask c sts repo task fs = .returned none
        (withFile fs1 (MustGetRepoPath repo (merge found lt task).Status (task.UUID ++ ".yml"))
          { data := c.marshal (merge found lt task), readErr := none, removeErr := none }) := by
      rw [ProcessTask_of_done c sts repo task fs found lt fs1 hscan, hsave]
    rw [hP]
    simp only [secondRun]
    have hscan2 := scan_finds c repo task.UUID sts
      (withFile fs1 (MustGetRepoPath repo (merge found lt task).Status (task.UUID ++ ".yml"))
        { data := c.marshal (merge found lt task), readErr := none, removeErr := none })
      (merge found lt task).Status
      { data := c.marshal (merge found lt task), readErr := none, removeErr := none }
      (merge found lt task) hmem (by simp [withFile]) rfl rfl (hrt _)
      (by
        intro p hp hne
        have hne2 : MustGetRepoPath repo p (task.UUID ++ ".yml") ≠
            MustGetRepoPath repo (merge found lt task).Status (task.UUID ++ ".yml") :=
          fun he => hne ((path_eq_iff _ _ _ _).mp he)
        simp only [withFile, hne2, if_false]
        exact hclear p hp)
    rw [without_withFile _ _ _ (hclear _ hmem)] at hscan2
    rw [ProcessTask_of_done c sts repo task _ true (merge found lt task) fs1 hscan2,
      merge_idem, hsave]

/-- Witness for C4 (amended): importing the pending candidate twice into the store that
holds the task in the active partition ends as importing it once does, with the one
merged record in the active partition. -/
theorem ProcessTask_idempotent_witness :
    secondRun plainCodec knownStatuses "repo" candidate
        (ProcessTask plainCodec knownStatuses "repo" candidate activeStore) =
      ProcessTask plainCodec knownStatuses "repo" candidate activeStore ∧
    (ProcessTask plainCodec knownStatuses "repo" candidate activeStore).partitions
      knownStatuses "repo" "u42" = some ["active"] :=
  ⟨ProcessTask_idempotent plainCodec knownStatuses "repo" candidate activeStore
    (by decide) (by decide) (by decide) (by decide) (by decide) (fun _ => rfl) (fun _ => rfl),
   by decide⟩

end Dstask
